import Mathlib

/-!
Shallow embedding of the compiler-argument handler in `src/make/maker.py`.

The embedded code is the class `Cargs` (methods `add_argument`, `get`,
`load`, `_set`), together with the module-level default specification
table `config['compiler']`.  Python values stored in `Cargs._values` are
modelled by the inductive `Value`; the Python `dict` keyed by strings is
modelled by an insertion-ordered association list (`dictLookup`,
`dictSet`).  Exceptions raised by the Python code (`ValueError`,
`KeyError`, `IndexError`, `AttributeError`, ...) are modelled by the
error type `Err` through `Except`.

The regular expressions appearing in the program are of two shapes: a
plain literal (for example the pattern for the debug flag), and a literal
followed by one capturing group over dot-star or dot-plus (for example
the optimize or lib patterns).  The inductive `Pat` is the abstract
syntax of exactly these shapes, and `reMatch` gives them Python
`re.match` semantics: the match is anchored at the start of the token
and is NOT required to span the whole token, the dot matches every
character except a newline, and dot-star / dot-plus are greedy.
-/

namespace Maker

/-- Python values as they occur in the `Cargs._values` mapping: `None`,
booleans, strings, and lists. -/
inductive Value where
  | pynone : Value
  | bool : Bool → Value
  | str : String → Value
  | list : List Value → Value

mutual

/-- Decidable equality of `Value`, written by hand because the `list`
constructor nests `Value` inside `List`. -/
def Value.decEq : (a b : Value) → Decidable (a = b)
  | Value.pynone, Value.pynone => isTrue rfl
  | Value.pynone, Value.bool _ => isFalse (fun h => Value.noConfusion h)
  | Value.pynone, Value.str _ => isFalse (fun h => Value.noConfusion h)
  | Value.pynone, Value.list _ => isFalse (fun h => Value.noConfusion h)
  | Value.bool _, Value.pynone => isFalse (fun h => Value.noConfusion h)
  | Value.bool a, Value.bool b =>
      match Bool.decEq a b with
      | isTrue h => isTrue (by rw [h])
      | isFalse h => isFalse (fun hh => h (Value.bool.inj hh))
  | Value.bool _, Value.str _ => isFalse (fun h => Value.noConfusion h)
  | Value.bool _, Value.list _ => isFalse (fun h => Value.noConfusion h)
  | Value.str _, Value.pynone => isFalse (fun h => Value.noConfusion h)
  | Value.str _, Value.bool _ => isFalse (fun h => Value.noConfusion h)
  | Value.str a, Value.str b =>
      match String.decEq a b with
      | isTrue h => isTrue (by rw [h])
      | isFalse h => isFalse (fun hh => h (Value.str.inj hh))
  | Value.str _, Value.list _ => isFalse (fun h => Value.noConfusion h)
  | Value.list _, Value.pynone => isFalse (fun h => Value.noConfusion h)
  | Value.list _, Value.bool _ => isFalse (fun h => Value.noConfusion h)
  | Value.list _, Value.str _ => isFalse (fun h => Value.noConfusion h)
  | Value.list a, Value.list b =>
      match Value.decEqList a b with
      | isTrue h => isTrue (by rw [h])
      | isFalse h => isFalse (fun hh => h (Value.list.inj hh))

/-- Decidable equality of lists of `Value`. -/
def Value.decEqList : (a b : List Value) → Decidable (a = b)
  | [], [] => isTrue rfl
  | [], _ :: _ => isFalse (fun h => List.noConfusion h)
  | _ :: _, [] => isFalse (fun h => List.noConfusion h)
  | x :: xs, y :: ys =>
      match Value.decEq x y with
      | isFalse h => isFalse (fun hh => h (List.head_eq_of_cons_eq hh))
      | isTrue h1 =>
          match Value.decEqList xs ys with
          | isTrue h2 => isTrue (by rw [h1, h2])
          | isFalse h2 => isFalse (fun hh => h2 (List.tail_eq_of_cons_eq hh))

end

instance : DecidableEq Value := Value.decEq

instance {ε α : Type} [DecidableEq ε] [DecidableEq α] :
    DecidableEq (Except ε α)
  | Except.error a, Except.error b =>
      match decEq a b with
      | isTrue h => isTrue (by rw [h])
      | isFalse h => isFalse (fun hh => h (Except.error.inj hh))
  | Except.error _, Except.ok _ => isFalse (fun h => Except.noConfusion h)
  | Except.ok _, Except.error _ => isFalse (fun h => Except.noConfusion h)
  | Except.ok a, Except.ok b =>
      match decEq a b with
      | isTrue h => isTrue (by rw [h])
      | isFalse h => isFalse (fun hh => h (Except.ok.inj hh))

/-- Decides whether the first character list begins the second one
(used to model anchored literal regex matching). -/
def strBegins : List Char → List Char → Bool
  | [], _ => true
  | _ :: _, [] => false
  | c :: cs, d :: ds => c == d && strBegins cs ds

/-- Abstract syntax of the regex shapes used by the program: a literal,
or a literal followed by one capturing group that is dot-star (when
`plus` is false) or dot-plus (when `plus` is true). -/
inductive Pat where
  | lit : String → Pat
  | preGroup : String → Bool → Pat
deriving DecidableEq

/-- Concrete regex text of a pattern, as it would appear in the Python
source (used by the self-capture test in `add_argument`). -/
def patString : Pat → List Char
  | Pat.lit s => s.data
  | Pat.preGroup pre plus =>
      pre.data ++ (if plus then "(.+)" else "(.*)").data

/-- Result of a successful `re.match`: the matched text (group 0) and
the text of capture group 1 when the pattern has one. -/
structure RMatch where
  g0 : String
  g1 : Option String
deriving DecidableEq

/-- Python `match.group(n)`: group 0 is the whole matched text, group 1
is the single capture group when present, and any other index has no
such group (Python raises there). -/
def RMatch.group (m : RMatch) : Nat → Option String
  | 0 => some m.g0
  | 1 => m.g1
  | _ => Option.none

/-- Python `re.match(patt, arg)` for the two pattern shapes.  A literal
matches when it begins the token.  A literal-plus-group pattern matches
when the literal begins the token and, for dot-plus, at least one
non-newline character follows; the greedy group captures every following
character up to a newline or the end of the token. -/
def reMatch (p : Pat) (arg : String) : Option RMatch :=
  match p with
  | Pat.lit s =>
      if strBegins s.data arg.data then some ⟨s, Option.none⟩ else Option.none
  | Pat.preGroup pre plus =>
      if strBegins pre.data arg.data then
        let rest := arg.data.drop pre.data.length
        let body := rest.takeWhile (fun c => c ≠ '\n')
        if plus && body.isEmpty then Option.none
        else some ⟨⟨pre.data ++ body⟩, some ⟨body⟩⟩
      else Option.none

/-- Match through an optional pattern.  Option specifications built by
`addArgument` always carry a pattern; the absent case is unreachable
from states the program constructs and yields no match. -/
def optMatch (p : Option Pat) (arg : String) : Option RMatch :=
  match p with
  | some patt => reMatch patt arg
  | Option.none => Option.none

/-- The self-capture test in `add_argument`: Python
`re.match` of the raw text `[^(]*\([^)]+\).*` against the pattern text,
i.e. the first opening parenthesis is followed by at least one character
before the next closing parenthesis, and that closing parenthesis
exists. -/
def hasGroup (s : List Char) : Bool :=
  let a := s.takeWhile (fun c => c ≠ '(')
  match s.drop a.length with
  | [] => false
  | _ :: r =>
      let b := r.takeWhile (fun c => c ≠ ')')
      !b.isEmpty && !(r.drop b.length).isEmpty

/-- The `'type'` entry of a specification's keyword configuration:
`'switch'`, `'next'`, or a capture-group index. -/
inductive CaptureType where
  | switch : CaptureType
  | next : CaptureType
  | group : Nat → CaptureType
deriving DecidableEq

/-- The `'count'` entry of a specification's keyword configuration:
`'*'`, `'+'`, or an exact integer. -/
inductive Count where
  | star : Count
  | plus : Count
  | exact : Nat → Count
deriving DecidableEq

/-- The keyword-argument dictionary passed to / stored by
`add_argument`: each field is absent or present, as in the Python
`kwargs` dict. -/
structure Conf where
  ctype : Option CaptureType
  count : Option Count
  default : Option Value
deriving DecidableEq

/-- One stored argument specification `[key, pattern, conf]`. -/
structure Spec where
  key : String
  pattern : Option Pat
  conf : Conf
deriving DecidableEq

/-- Lookup in an insertion-ordered association list (Python dict read). -/
def dictLookup (vs : List (String × Value)) (k : String) : Option Value :=
  match vs with
  | [] => Option.none
  | (k1, v1) :: rest => if k1 = k then some v1 else dictLookup rest k

/-- Write to an insertion-ordered association list (Python dict write):
an existing key keeps its position, a new key is appended. -/
def dictSet (vs : List (String × Value)) (k : String) (v : Value) :
    List (String × Value) :=
  match vs with
  | [] => [(k, v)]
  | (k1, v1) :: rest =>
      if k1 = k then (k1, v) :: rest else (k1, v1) :: dictSet rest k v

/-- The mutable state of a `Cargs` object: the ordered option
specifications, the ordered positional specifications, and the `_values`
mapping. -/
structure CargsState where
  opt_specs : List Spec
  pos_specs : List Spec
  values : List (String × Value)
deriving DecidableEq

/-- `Cargs.__init__`: empty specification lists and an empty value
mapping. -/
def initState : CargsState := ⟨[], [], []⟩

/-- `Cargs.add_argument(key, pattern, **kwargs)`.  With a pattern: when a
count is given and no type, the type defaults to group 1 if the pattern
text passes the self-capture test and to next-token otherwise; with no
count the type defaults to switch; a switch then receives the automatic
default `False`; the initial value is the configured default, falling
back to the empty list when a count is given and to `None` otherwise.
Without a pattern, a positional specification is stored with the same
initial-value rule and an untouched configuration. -/
def addArgument (st : CargsState) (key : String) (pattern : Option Pat)
    (kwargs : Conf) : CargsState :=
  match pattern with
  | some patt =>
      let kw1 : Conf :=
        match kwargs.count with
        | some _ =>
            match kwargs.ctype with
            | some _ => kwargs
            | Option.none =>
                if hasGroup (patString patt) then
                  ⟨some (CaptureType.group 1), kwargs.count, kwargs.default⟩
                else
                  ⟨some CaptureType.next, kwargs.count, kwargs.default⟩
        | Option.none =>
            match kwargs.ctype with
            | some _ => kwargs
            | Option.none => ⟨some CaptureType.switch, kwargs.count, kwargs.default⟩
      let kw2 : Conf :=
        if kw1.ctype = some CaptureType.switch then
          match kw1.default with
          | some _ => kw1
          | Option.none => ⟨kw1.ctype, kw1.count, some (Value.bool false)⟩
        else kw1
      let dflt : Value :=
        match kw2.count with
        | some _ => kw2.default.getD (Value.list [])
        | Option.none => kw2.default.getD Value.pynone
      ⟨st.opt_specs ++ [⟨key, some patt, kw2⟩], st.pos_specs,
       dictSet st.values key dflt⟩
  | Option.none =>
      let dflt : Value :=
        match kwargs.count with
        | some _ => kwargs.default.getD (Value.list [])
        | Option.none => kwargs.default.getD Value.pynone
      ⟨st.opt_specs, st.pos_specs ++ [⟨key, Option.none, kwargs⟩],
       dictSet st.values key dflt⟩

/-- Failure modes of the embedded code, one per Python exception site. -/
inductive Err where
  | missingValue : String → Err
  | unknownKey : String → Err
  | keyError : String → Err
  | attributeError : String → Err
  | indexError : Err
  | noSuchGroup : Err
  | typeError : String → Err
deriving DecidableEq

/-- `Cargs.get(key)`: the stored value, or the `ValueError` for an
unknown argument key. -/
def get (vs : List (String × Value)) (key : String) : Except Err Value :=
  match dictLookup vs key with
  | Option.none => Except.error (Err.unknownKey key)
  | some v => Except.ok v

/-- `Cargs._set(spec, value)`: with a count in the configuration the
value is appended to the stored list (a missing key raises `KeyError`,
a non-list stored value raises `AttributeError`); otherwise the value
overwrites the stored entry. -/
def setValue (vs : List (String × Value)) (spec : Spec) (v : Value) :
    Except Err (List (String × Value)) :=
  match spec.conf.count with
  | some _ =>
      match dictLookup vs spec.key with
      | Option.none => Except.error (Err.keyError spec.key)
      | some (Value.list l) =>
          Except.ok (dictSet vs spec.key (Value.list (l ++ [v])))
      | some _ => Except.error (Err.attributeError spec.key)
  | Option.none => Except.ok (dictSet vs spec.key v)

/-- The inner loop of `Cargs.load` over `self._opt_specs`: the first
specification whose pattern matches the token wins, with its match
object. -/
def findCapture (opts : List Spec) (arg : String) : Option (Spec × RMatch) :=
  match opts with
  | [] => Option.none
  | s :: rest =>
      match optMatch s.pattern arg with
      | some m => some (s, m)
      | Option.none => findCapture rest arg

/-- One iteration of the scan loop in `Cargs.load`, for the token `arg`
at the current position; `rest` is the list of tokens after `arg`, `i`
is `pos_index` and `vs` is `_values`.  A first-matching option is
handled by its type: next-token reads the following token (raising the
missing-value `ValueError` when there is none) — note the consumed token
remains in `rest` and is scanned again, because rebinding the loop
variable in a Python for-range loop does not skip an iteration; switch
stores `True`; a group index stores that capture group.  An unmatched
token goes to the positional specification at `pos_index` (raising
`IndexError` past the end); after the value is stored, an integer count
advances `pos_index` once the stored list is long enough, a non-integer
count never advances it, and no count advances it immediately. -/
def stepOne (opts poss : List Spec) (arg : String) (rest : List String)
    (i : Nat) (vs : List (String × Value)) :
    Except Err (Nat × List (String × Value)) :=
  match findCapture opts arg with
  | some (spec, m) =>
      match spec.conf.ctype with
      | some CaptureType.next =>
          match rest with
          | [] => Except.error (Err.missingValue spec.key)
          | v :: _ =>
              match setValue vs spec (Value.str v) with
              | Except.error e => Except.error e
              | Except.ok vs1 => Except.ok (i, vs1)
      | some CaptureType.switch =>
          match setValue vs spec (Value.bool true) with
          | Except.error e => Except.error e
          | Except.ok vs1 => Except.ok (i, vs1)
      | some (CaptureType.group n) =>
          match m.group n with
          | Option.none => Except.error Err.noSuchGroup
          | some s =>
              match setValue vs spec (Value.str s) with
              | Except.error e => Except.error e
              | Except.ok vs1 => Except.ok (i, vs1)
      | Option.none => Except.error (Err.keyError "type")
  | Option.none =>
      match poss.get? i with
      | Option.none => Except.error Err.indexError
      | some spec =>
          match setValue vs spec (Value.str arg) with
          | Except.error e => Except.error e
          | Except.ok vs1 =>
              match spec.conf.count with
              | some (Count.exact n) =>
                  match dictLookup vs1 spec.key with
                  | some (Value.list l) =>
                      if n ≤ l.length then Except.ok (i + 1, vs1)
                      else Except.ok (i, vs1)
                  | _ => Except.error (Err.typeError spec.key)
              | some _ => Except.ok (i, vs1)
              | Option.none => Except.ok (i + 1, vs1)

/-- The scan loop of `Cargs.load`: tokens are dispatched left to right,
threading `pos_index` and `_values`; the first raised exception aborts
the scan. -/
def scan (opts poss : List Spec) :
    List String → Nat → List (String × Value) →
    Except Err (Nat × List (String × Value))
  | [], i, vs => Except.ok (i, vs)
  | arg :: rest, i, vs =>
      match stepOne opts poss arg rest i vs with
      | Except.error e => Except.error e
      | Except.ok (j, vs1) => scan opts poss rest j vs1

/-- `Cargs.load(arguments)`: scan every token starting with `pos_index`
zero and the current `_values`, then return the value mapping.  The
source performs no validation after the scan (the site is only marked
by a to-do comment), so a completed scan always yields a result. -/
def load (st : CargsState) (args : List String) :
    Except Err (List (String × Value)) :=
  match scan st.opt_specs st.pos_specs args 0 st.values with
  | Except.error e => Except.error e
  | Except.ok (_, vs) => Except.ok vs

/-- Register a list of declarations `(key, pattern, kwargs)` in order on
a fresh `Cargs` object, as `Helper.make` does with the configuration
table. -/
def registerAll (decls : List (String × Option Pat × Conf)) : CargsState :=
  decls.foldl (fun st d => addArgument st d.1 d.2.1 d.2.2) initState

/-- The module-level `config['compiler']` table of `maker.py`, line for
line. -/
def defaultDecls : List (String × Option Pat × Conf) :=
  [ ("debug", some (Pat.lit "-g"),
      ⟨some CaptureType.switch, Option.none, Option.none⟩),
    ("optimize", some (Pat.preGroup "-O" false),
      ⟨Option.none, Option.none, Option.none⟩),
    ("warn", some (Pat.preGroup "-W" false),
      ⟨Option.none, Option.none, Option.none⟩),
    ("lib", some (Pat.preGroup "-l" true),
      ⟨Option.none, some Count.star, Option.none⟩),
    ("libsearch", some (Pat.preGroup "-L" true),
      ⟨Option.none, some Count.star, Option.none⟩),
    ("incsearch", some (Pat.preGroup "-I" true),
      ⟨Option.none, some Count.star, Option.none⟩),
    ("compile", some (Pat.lit "-c"),
      ⟨some CaptureType.switch, Option.none, Option.none⟩),
    ("output", some (Pat.lit "-o"),
      ⟨some CaptureType.next, Option.none, some (Value.str "a.out")⟩),
    ("unknown", some (Pat.preGroup "-" true),
      ⟨Option.none, some Count.star, Option.none⟩),
    ("input", Option.none,
      ⟨Option.none, some Count.plus, Option.none⟩) ]

/-- The `Cargs` state after `Helper.make` registers the default
specification table. -/
def defaultState : CargsState := registerAll defaultDecls

/-- `Cargs.load` against the default specification table. -/
def loadDefault (args : List String) : Except Err (List (String × Value)) :=
  load defaultState args

/-- Keys of declarations, in registration order. -/
def declKeys (decls : List (String × Option Pat × Conf)) : List String :=
  decls.map (fun d => d.1)

/-- Keys of a value mapping, in insertion order. -/
def keysOf (vs : List (String × Value)) : List String := vs.map Prod.fst

theorem dictLookup_dictSet_self (vs : List (String × Value)) (k : String)
    (v : Value) : dictLookup (dictSet vs k v) k = some v := by
  induction vs with
  | nil => simp [dictSet, dictLookup]
  | cons p rest ih =>
      obtain ⟨k1, v1⟩ := p
      by_cases hk : k1 = k
      · simp [dictSet, dictLookup, hk]
      · simp [dictSet, dictLookup, hk, ih]

theorem keysOf_nil : keysOf [] = [] := rfl

theorem keysOf_cons (p : String × Value) (rest : List (String × Value)) :
    keysOf (p :: rest) = p.1 :: keysOf rest := rfl

theorem dictLookup_eq_none_iff (vs : List (String × Value)) (k : String) :
    dictLookup vs k = Option.none ↔ k ∉ keysOf vs := by
  induction vs with
  | nil => simp [dictLookup, keysOf_nil]
  | cons p rest ih =>
      obtain ⟨k1, v1⟩ := p
      by_cases hk : k1 = k
      · subst hk
        simp [dictLookup, keysOf_cons]
      · have hk2 : ¬k = k1 := fun h => hk h.symm
        simp [dictLookup, keysOf_cons, hk, hk2, List.mem_cons, ih]

theorem mem_keysOf_dictSet (vs : List (String × Value)) (k x : String)
    (v : Value) : x ∈ keysOf (dictSet vs k v) ↔ x ∈ keysOf vs ∨ x = k := by
  induction vs with
  | nil => simp [dictSet, keysOf_cons, keysOf_nil]
  | cons p rest ih =>
      obtain ⟨k1, v1⟩ := p
      by_cases hk : k1 = k
      · subst hk
        simp [dictSet, keysOf_cons, List.mem_cons]
        tauto
      · simp [dictSet, hk, keysOf_cons, List.mem_cons, ih]
        tauto

theorem keysOf_dictSet_of_mem (vs : List (String × Value)) (k : String)
    (v : Value) (h : k ∈ keysOf vs) : keysOf (dictSet vs k v) = keysOf vs := by
  induction vs with
  | nil => simp [keysOf_nil] at h
  | cons p rest ih =>
      obtain ⟨k1, v1⟩ := p
      by_cases hk : k1 = k
      · simp [dictSet, keysOf_cons, hk]
      · rw [keysOf_cons] at h
        rcases List.mem_cons.mp h with h2 | h2
        · exact absurd h2.symm hk
        · simp [dictSet, keysOf_cons, hk, ih h2]

theorem mem_of_getIdx {α : Type} :
    ∀ (l : List α) (n : Nat) (a : α), l.get? n = some a → a ∈ l := by
  intro l
  induction l with
  | nil => intro n a h; exact Option.noConfusion h
  | cons x xs ih =>
      intro n a h
      cases n with
      | zero =>
          have hx : x = a := Option.some.inj h
          rw [hx]
          exact List.mem_cons_self a xs
      | succ n => exact List.mem_cons_of_mem x (ih n a h)

theorem findCapture_mem (opts : List Spec) (arg : String) (spec : Spec)
    (m : RMatch) (h : findCapture opts arg = some (spec, m)) : spec ∈ opts := by
  induction opts with
  | nil => simp [findCapture] at h
  | cons s rest ih =>
      unfold findCapture at h
      cases hm : optMatch s.pattern arg with
      | some m1 =>
          rw [hm] at h
          simp at h
          simp [h.1]
      | none =>
          rw [hm] at h
          exact List.mem_cons_of_mem s (ih h)

theorem keysOf_setValue (vs vs1 : List (String × Value)) (spec : Spec)
    (v : Value) (hmem : spec.key ∈ keysOf vs)
    (h : setValue vs spec v = Except.ok vs1) : keysOf vs1 = keysOf vs := by
  unfold setValue at h
  cases hc : spec.conf.count with
  | some c =>
      rw [hc] at h
      cases hl : dictLookup vs spec.key with
      | none => rw [hl] at h; exact Except.noConfusion h
      | some val =>
          rw [hl] at h
          cases val with
          | pynone => exact Except.noConfusion h
          | bool b => exact Except.noConfusion h
          | str s => exact Except.noConfusion h
          | list l =>
              simp at h
              rw [← h]
              exact keysOf_dictSet_of_mem vs spec.key _ hmem
  | none =>
      rw [hc] at h
      simp at h
      rw [← h]
      exact keysOf_dictSet_of_mem vs spec.key v hmem

theorem keysOf_stepOne (opts poss : List Spec) (arg : String)
    (rest : List String) (i : Nat) (vs : List (String × Value)) (j : Nat)
    (vs1 : List (String × Value))
    (hopts : ∀ s ∈ opts, Spec.key s ∈ keysOf vs)
    (hposs : ∀ s ∈ poss, Spec.key s ∈ keysOf vs)
    (h : stepOne opts poss arg rest i vs = Except.ok (j, vs1)) :
    keysOf vs1 = keysOf vs := by
  unfold stepOne at h
  split at h
  next spec m hf =>
    have hspec : spec.key ∈ keysOf vs :=
      hopts spec (findCapture_mem opts arg spec m hf)
    split at h
    next hct =>
      split at h
      next => exact Except.noConfusion h
      next v t =>
        split at h
        next e hs => exact Except.noConfusion h
        next vs2 hs =>
          simp at h
          rw [← h.2]
          exact keysOf_setValue vs vs2 spec _ hspec hs
    next hct =>
      split at h
      next e hs => exact Except.noConfusion h
      next vs2 hs =>
        simp at h
        rw [← h.2]
        exact keysOf_setValue vs vs2 spec _ hspec hs
    next n hct =>
      split at h
      next hg => exact Except.noConfusion h
      next s hg =>
        split at h
        next e hs => exact Except.noConfusion h
        next vs2 hs =>
          simp at h
          rw [← h.2]
          exact keysOf_setValue vs vs2 spec _ hspec hs
    next hct => exact Except.noConfusion h
  next hf =>
    split at h
    next hp => exact Except.noConfusion h
    next spec hp =>
      have hspec : spec.key ∈ keysOf vs :=
        hposs spec (mem_of_getIdx poss i spec hp)
      split at h
      next e hs => exact Except.noConfusion h
      next vs2 hs =>
        have hkeys : keysOf vs2 = keysOf vs :=
          keysOf_setValue vs vs2 spec _ hspec hs
        split at h
        next n hc =>
          split at h
          next l hl =>
            split at h
            · simp at h; rw [← h.2]; exact hkeys
            · simp at h; rw [← h.2]; exact hkeys
          next hl => exact Except.noConfusion h
        next hc hne => simp at h; rw [← h.2]; exact hkeys
        next hc => simp at h; rw [← h.2]; exact hkeys

theorem keysOf_scan (opts poss : List Spec) :
    ∀ (args : List String) (i : Nat) (vs : List (String × Value)) (j : Nat)
      (vs1 : List (String × Value)),
      (∀ s ∈ opts, Spec.key s ∈ keysOf vs) →
      (∀ s ∈ poss, Spec.key s ∈ keysOf vs) →
      scan opts poss args i vs = Except.ok (j, vs1) →
      keysOf vs1 = keysOf vs := by
  intro args
  induction args with
  | nil =>
      intro i vs j vs1 _ _ h
      unfold scan at h
      simp at h
      rw [← h.2]
  | cons a rest ih =>
      intro i vs j vs1 hopts hposs h
      unfold scan at h
      cases hs : stepOne opts poss a rest i vs with
      | error e => rw [hs] at h; exact Except.noConfusion h
      | ok r =>
          obtain ⟨i2, vs2⟩ := r
          rw [hs] at h
          have hk2 : keysOf vs2 = keysOf vs :=
            keysOf_stepOne opts poss a rest i vs i2 vs2 hopts hposs hs
          have hopts2 : ∀ s ∈ opts, Spec.key s ∈ keysOf vs2 := by
            intro s hsmem; rw [hk2]; exact hopts s hsmem
          have hposs2 : ∀ s ∈ poss, Spec.key s ∈ keysOf vs2 := by
            intro s hsmem; rw [hk2]; exact hposs s hsmem
          rw [ih i2 vs2 j vs1 hopts2 hposs2 h]
          exact hk2

theorem stepOne_extend (opts poss : List Spec) (arg : String)
    (rest ys : List String) (i : Nat) (vs : List (String × Value))
    (r : Nat × List (String × Value))
    (h : stepOne opts poss arg rest i vs = Except.ok r) :
    stepOne opts poss arg (rest ++ ys) i vs = Except.ok r := by
  unfold stepOne at h ⊢
  split at h
  next spec m hf =>
    split at h
    next hct =>
      split at h
      next => exact Except.noConfusion h
      next v t => exact h
    next hct => exact h
    next n hct => exact h
    next hct => exact Except.noConfusion h
  next hf => exact h

theorem scan_extend (opts poss : List Spec) :
    ∀ (xs ys : List String) (i : Nat) (vs : List (String × Value)) (j : Nat)
      (vs1 : List (String × Value)),
      scan opts poss xs i vs = Except.ok (j, vs1) →
      scan opts poss (xs ++ ys) i vs = scan opts poss ys j vs1 := by
  intro xs
  induction xs with
  | nil =>
      intro ys i vs j vs1 h
      unfold scan at h
      simp at h
      rw [h.1, h.2]
      rfl
  | cons a xs ih =>
      intro ys i vs j vs1 h
      unfold scan at h
      cases hs : stepOne opts poss a xs i vs with
      | error e => rw [hs] at h; exact Except.noConfusion h
      | ok r =>
          obtain ⟨i2, vs2⟩ := r
          rw [hs] at h
          have hs2 : stepOne opts poss a (xs ++ ys) i vs = Except.ok (i2, vs2) :=
            stepOne_extend opts poss a xs ys i vs (i2, vs2) hs
          have hstep : scan opts poss (a :: (xs ++ ys)) i vs =
              scan opts poss (xs ++ ys) i2 vs2 := by
            show (match stepOne opts poss a (xs ++ ys) i vs with
                  | Except.error e => Except.error e
                  | Except.ok (j, vs1) => scan opts poss (xs ++ ys) j vs1) =
              scan opts poss (xs ++ ys) i2 vs2
            rw [hs2]
          show scan opts poss (a :: (xs ++ ys)) i vs = scan opts poss ys j vs1
          rw [hstep]
          exact ih ys i2 vs2 j vs1 h

theorem addArgument_some_parts (st : CargsState) (key : String) (patt : Pat)
    (kw : Conf) :
    ∃ conf dflt, addArgument st key (some patt) kw =
      ⟨st.opt_specs ++ [⟨key, some patt, conf⟩], st.pos_specs,
       dictSet st.values key dflt⟩ :=
  ⟨_, _, rfl⟩

theorem addArgument_none_parts (st : CargsState) (key : String) (kw : Conf) :
    ∃ dflt, addArgument st key Option.none kw =
      ⟨st.opt_specs, st.pos_specs ++ [⟨key, Option.none, kw⟩],
       dictSet st.values key dflt⟩ :=
  ⟨_, rfl⟩

theorem mem_keysOf_addArgument (st : CargsState) (key : String)
    (p : Option Pat) (kw : Conf) (x : String) :
    x ∈ keysOf (addArgument st key p kw).values ↔
      x ∈ keysOf st.values ∨ x = key := by
  cases p with
  | some patt =>
      obtain ⟨conf, dflt, heq⟩ := addArgument_some_parts st key patt kw
      rw [heq]
      exact mem_keysOf_dictSet st.values key x dflt
  | none =>
      obtain ⟨dflt, heq⟩ := addArgument_none_parts st key kw
      rw [heq]
      exact mem_keysOf_dictSet st.values key x dflt

/-- Invariant of a `Cargs` state: every stored specification's key is
present in the `_values` mapping. -/
def specsKeysOk (st : CargsState) : Prop :=
  (∀ s ∈ st.opt_specs, Spec.key s ∈ keysOf st.values) ∧
  (∀ s ∈ st.pos_specs, Spec.key s ∈ keysOf st.values)

theorem specsKeysOk_addArgument (st : CargsState) (key : String)
    (p : Option Pat) (kw : Conf) (h : specsKeysOk st) :
    specsKeysOk (addArgument st key p kw) := by
  obtain ⟨h1, h2⟩ := h
  cases p with
  | some patt =>
      obtain ⟨conf, dflt, heq⟩ := addArgument_some_parts st key patt kw
      rw [heq]
      constructor
      · intro s hs
        rcases List.mem_append.mp hs with hm | hm
        · show Spec.key s ∈ keysOf (dictSet st.values key dflt)
          rw [mem_keysOf_dictSet]
          exact Or.inl (h1 s hm)
        · have hseq : s = ⟨key, some patt, conf⟩ := List.mem_singleton.mp hm
          rw [hseq]
          show key ∈ keysOf (dictSet st.values key dflt)
          rw [mem_keysOf_dictSet]
          exact Or.inr rfl
      · intro s hs
        show Spec.key s ∈ keysOf (dictSet st.values key dflt)
        rw [mem_keysOf_dictSet]
        exact Or.inl (h2 s hs)
  | none =>
      obtain ⟨dflt, heq⟩ := addArgument_none_parts st key kw
      rw [heq]
      constructor
      · intro s hs
        show Spec.key s ∈ keysOf (dictSet st.values key dflt)
        rw [mem_keysOf_dictSet]
        exact Or.inl (h1 s hs)
      · intro s hs
        rcases List.mem_append.mp hs with hm | hm
        · show Spec.key s ∈ keysOf (dictSet st.values key dflt)
          rw [mem_keysOf_dictSet]
          exact Or.inl (h2 s hm)
        · have hseq : s = ⟨key, Option.none, kw⟩ := List.mem_singleton.mp hm
          rw [hseq]
          show key ∈ keysOf (dictSet st.values key dflt)
          rw [mem_keysOf_dictSet]
          exact Or.inr rfl

theorem specsKeysOk_foldl (decls : List (String × Option Pat × Conf)) :
    ∀ st : CargsState, specsKeysOk st →
      specsKeysOk
        (List.foldl (fun st d => addArgument st d.1 d.2.1 d.2.2) st decls) := by
  induction decls with
  | nil => intro st h; exact h
  | cons d ds ih =>
      intro st h
      exact ih _ (specsKeysOk_addArgument st d.1 d.2.1 d.2.2 h)

theorem specsKeysOk_registerAll (decls : List (String × Option Pat × Conf)) :
    specsKeysOk (registerAll decls) :=
  specsKeysOk_foldl decls initState
    ⟨fun s hs => absurd hs (List.not_mem_nil s),
     fun s hs => absurd hs (List.not_mem_nil s)⟩

theorem mem_keysOf_foldl (decls : List (String × Option Pat × Conf)) :
    ∀ (st : CargsState) (x : String),
      x ∈ keysOf
          (List.foldl (fun st d => addArgument st d.1 d.2.1 d.2.2) st
            decls).values ↔
        x ∈ keysOf st.values ∨ x ∈ declKeys decls := by
  induction decls with
  | nil => intro st x; simp [declKeys]
  | cons d ds ih =>
      intro st x
      rw [List.foldl_cons, ih, mem_keysOf_addArgument]
      simp [declKeys, List.mem_cons]
      tauto

theorem mem_keysOf_registerAll (decls : List (String × Option Pat × Conf))
    (x : String) :
    x ∈ keysOf (registerAll decls).values ↔ x ∈ declKeys decls := by
  rw [registerAll, mem_keysOf_foldl]
  simp [initState, keysOf_nil]

/-- C1: refuted by the code.  When a next-token option consumes the
following token as its value, the scan does NOT resume two positions
later: rebinding the loop variable in the Python for-range loop does not
skip an iteration, so the consumed value token is scanned again.  On
the default specification with tokens -o, out, a.c the token out is both
stored as the output value and appended to the positional input list
(the claim predicts input holding only a.c). -/
theorem C1_next_token_value_rescanned :
    (loadDefault ["-o", "out", "a.c"]).map
      (fun vs => (dictLookup vs "output", dictLookup vs "input")) =
    Except.ok (some (Value.str "out"),
               some (Value.list [Value.str "out", Value.str "a.c"])) := by
  decide

/-- C2: refuted by the code.  After the scan loop, `load` performs no
arity validation (the site holds only the to-do comment of the author),
so parsing the empty token vector against the default specification
returns the seeded default mapping — with the required positional input
still the empty list — instead of failing. -/
theorem C2_no_required_positional_check :
    loadDefault [] = Except.ok defaultState.values ∧
    dictLookup defaultState.values "input" = some (Value.list []) := by
  exact ⟨by decide, by decide⟩

/-- C3 counterexample: the optimize declaration is registered with an
empty configuration, so `add_argument` resolves its capture type to
switch; parsing the claimed scenario stores the boolean true for
optimize, never the captured suffix string. -/
theorem C3_optimize_counterexample :
    ¬ (loadDefault ["-g", "-O3", "main.c"]).map
        (fun vs => dictLookup vs "optimize") =
      Except.ok (some (Value.str "3")) := by
  decide

/-- C3 amended: parsing the scenario tokens against the default
specification yields debug true, optimize true (a switch, not the
captured suffix), input holding main.c, and the declared default output
a.out. -/
theorem C3_default_scenario :
    (loadDefault ["-g", "-O3", "main.c"]).map
      (fun vs => (dictLookup vs "debug", dictLookup vs "optimize",
                  dictLookup vs "input", dictLookup vs "output")) =
    Except.ok (some (Value.bool true), some (Value.bool true),
               some (Value.list [Value.str "main.c"]),
               some (Value.str "a.out")) := by
  decide

/-- Two overlapping literal option declarations used to refute the
full-token reading of first-match-wins. -/
def overlapDecls : List (String × Option Pat × Conf) :=
  [ ("k1", some (Pat.lit "-a"), ⟨Option.none, Option.none, Option.none⟩),
    ("k2", some (Pat.lit "-ab"), ⟨Option.none, Option.none, Option.none⟩) ]

/-- C4 counterexample: on the token -ab, the first declaration's pattern
-a matches only a proper PREFIX of the token (its group 0 is -a), yet it
determines the capture: k1 becomes true and k2 — the only declaration
whose pattern matches the full token — stays false.  The claim's
full-token reading predicts the opposite assignment. -/
theorem C4_prefix_capture_counterexample :
    (load (registerAll overlapDecls) ["-ab"]).map
      (fun vs => (dictLookup vs "k1", dictLookup vs "k2")) =
      Except.ok (some (Value.bool true), some (Value.bool false)) ∧
    reMatch (Pat.lit "-a") "-ab" = some ⟨"-a", Option.none⟩ := by
  exact ⟨by decide, by decide⟩

/-- C4 amended: the capture is determined by the FIRST declaration in
registration order whose pattern matches at the start of the token
(Python re.match semantics: anchored at the beginning, not required to
span the whole token); declarations before it that do not match are
skipped, and later declarations never see the token. -/
theorem C4_first_match_wins (pre post : List Spec) (s : Spec) (m : RMatch)
    (arg : String)
    (hpre : ∀ t ∈ pre, optMatch t.pattern arg = Option.none)
    (hs : optMatch s.pattern arg = some m) :
    findCapture (pre ++ s :: post) arg = some (s, m) := by
  induction pre with
  | nil =>
      show findCapture (s :: post) arg = some (s, m)
      unfold findCapture
      rw [hs]
  | cons t ts ih =>
      have ht : optMatch t.pattern arg = Option.none :=
        hpre t (List.mem_cons_self t ts)
      show findCapture (t :: (ts ++ s :: post)) arg = some (s, m)
      unfold findCapture
      rw [ht]
      exact ih (fun u hu => hpre u (List.mem_cons_of_mem t hu))

/-- C4 witness: among the registered debug and optimize declarations the
token -O3 skips the non-matching debug pattern and is captured by the
optimize declaration, with match object group 0 equal to -O3 and group 1
equal to 3. -/
theorem C4_first_match_wins_witness :
    findCapture
      ([⟨"debug", some (Pat.lit "-g"),
          ⟨some CaptureType.switch, Option.none, some (Value.bool false)⟩⟩] ++
        ⟨"optimize", some (Pat.preGroup "-O" false),
          ⟨some CaptureType.switch, Option.none, some (Value.bool false)⟩⟩ ::
          []) "-O3" =
      some (⟨"optimize", some (Pat.preGroup "-O" false),
              ⟨some CaptureType.switch, Option.none, some (Value.bool false)⟩⟩,
            ⟨"-O3", some "3"⟩) :=
  C4_first_match_wins _ _ _ _ _ (by decide) (by decide)

/-- C5: parsing the library scenario against the default specification
appends capture group 1 of each matching token, in input order, to the
lib list, and the remaining token goes to the positional input list. -/
theorem C5_group_capture_order :
    (loadDefault ["-lm", "-lpthread", "x.c"]).map
      (fun vs => (dictLookup vs "lib", dictLookup vs "input")) =
    Except.ok (some (Value.list [Value.str "m", Value.str "pthread"]),
               some (Value.list [Value.str "x.c"])) := by
  decide

/-- C6: when the scan reaches the last token having produced state
`(j, vs1)`, and the first option declaration matching that token has
capture type next-token, `load` aborts with the missing-value error for
that declaration's key and returns no result. -/
theorem C6_next_token_missing_value (st : CargsState) (pre : List String)
    (a : String) (j : Nat) (vs1 : List (String × Value)) (spec : Spec)
    (m : RMatch)
    (h1 : scan st.opt_specs st.pos_specs pre 0 st.values = Except.ok (j, vs1))
    (h2 : findCapture st.opt_specs a = some (spec, m))
    (h3 : spec.conf.ctype = some CaptureType.next) :
    load st (pre ++ [a]) = Except.error (Err.missingValue spec.key) := by
  have hstep : stepOne st.opt_specs st.pos_specs a [] j vs1 =
      Except.error (Err.missingValue spec.key) := by
    simp only [stepOne, h2, h3]
  have hlast : scan st.opt_specs st.pos_specs [a] j vs1 =
      Except.error (Err.missingValue spec.key) := by
    show (match stepOne st.opt_specs st.pos_specs a [] j vs1 with
          | Except.error e => Except.error e
          | Except.ok (j2, vs2) => scan st.opt_specs st.pos_specs [] j2 vs2) =
      Except.error (Err.missingValue spec.key)
    rw [hstep]
  unfold load
  rw [scan_extend st.opt_specs st.pos_specs pre [a] 0 st.values j vs1 h1,
      hlast]

/-- C6 witness: the scenario token vector holding only -o is matched by
the next-token output declaration at the last index, and loading fails
with the missing-value error. -/
theorem C6_next_token_missing_value_witness :
    load defaultState ([] ++ ["-o"]) =
      Except.error (Err.missingValue "output") :=
  C6_next_token_missing_value defaultState [] "-o" 0 defaultState.values
    ⟨"output", some (Pat.lit "-o"),
      ⟨some CaptureType.next, Option.none, some (Value.str "a.out")⟩⟩
    ⟨"-o", Option.none⟩ rfl (by decide) rfl

/-- C7: parsing is deterministic over a fresh state: registering the
same declarations and loading the same token vector twice yields the
same result mapping (the embedding passes the per-call `ParseState`
explicitly, so each `load` here starts from the freshly registered
state). -/
theorem C7_reparse_identical (decls : List (String × Option Pat × Conf))
    (args : List String) (r1 r2 : List (String × Value))
    (h1 : load (registerAll decls) args = Except.ok r1)
    (h2 : load (registerAll decls) args = Except.ok r2) : r1 = r2 :=
  Except.ok.inj (h1.symm.trans h2)

/-- Result mapping of loading the single token x.c against the default
specification: every key holds its default except input. -/
def resultXc : List (String × Value) :=
  [ ("debug", Value.bool false), ("optimize", Value.bool false),
    ("warn", Value.bool false), ("lib", Value.list []),
    ("libsearch", Value.list []), ("incsearch", Value.list []),
    ("compile", Value.bool false), ("output", Value.str "a.out"),
    ("unknown", Value.list []), ("input", Value.list [Value.str "x.c"]) ]

/-- C7 witness: loading the token x.c against the default specification
twice yields the same concrete mapping. -/
theorem C7_reparse_identical_witness :
    load (registerAll defaultDecls) ["x.c"] = Except.ok resultXc ∧
    resultXc = resultXc :=
  ⟨by decide,
   C7_reparse_identical defaultDecls ["x.c"] resultXc resultXc
     (by decide) (by decide)⟩

/-- C8 counterexample: registering an option with the empty pattern does
not fail — `add_argument` contains no validation at all.  The
declaration is stored as a switch with default false, and a subsequent
load matches the empty pattern against every token (an empty prefix), so
an ordinary token is captured by it. -/
theorem C8_empty_pattern_counterexample :
    addArgument initState "x" (some (Pat.lit ""))
        ⟨Option.none, Option.none, Option.none⟩ =
      ⟨[⟨"x", some (Pat.lit ""),
          ⟨some CaptureType.switch, Option.none, some (Value.bool false)⟩⟩],
       [], [("x", Value.bool false)]⟩ ∧
    load (addArgument initState "x" (some (Pat.lit ""))
        ⟨Option.none, Option.none, Option.none⟩) ["tok"] =
      Except.ok [("x", Value.bool true)] := by
  exact ⟨by decide, by decide⟩

/-- C8 amended: registration of an empty-pattern option succeeds on any
state: the specification is appended to the option list (resolved as a
switch with automatic default false), the key immediately holds false,
and the empty pattern matches every token with an empty group 0. -/
theorem C8_empty_pattern_accepted (st : CargsState) (key : String) :
    (addArgument st key (some (Pat.lit ""))
        ⟨Option.none, Option.none, Option.none⟩).opt_specs =
      st.opt_specs ++
        [⟨key, some (Pat.lit ""),
           ⟨some CaptureType.switch, Option.none, some (Value.bool false)⟩⟩] ∧
    get (addArgument st key (some (Pat.lit ""))
        ⟨Option.none, Option.none, Option.none⟩).values key =
      Except.ok (Value.bool false) ∧
    ∀ arg : String, reMatch (Pat.lit "") arg = some ⟨"", Option.none⟩ := by
  refine ⟨rfl, ?_, fun arg => rfl⟩
  show get (dictSet st.values key (Value.bool false)) key =
    Except.ok (Value.bool false)
  unfold get
  rw [dictLookup_dictSet_self]

/-- C9: whenever `load` returns a result, the result mapping contains an
entry for every declared key, and the accessor `get` fails with the
unknown-key error exactly on the keys that were never declared. -/
theorem C9_result_keys (decls : List (String × Option Pat × Conf))
    (args : List String) (res : List (String × Value)) (key : String)
    (h : load (registerAll decls) args = Except.ok res) :
    (key ∈ declKeys decls → dictLookup res key ≠ Option.none) ∧
    (get res key = Except.error (Err.unknownKey key) ↔
      key ∉ declKeys decls) := by
  unfold load at h
  cases hs : scan (registerAll decls).opt_specs (registerAll decls).pos_specs
      args 0 (registerAll decls).values with
  | error e => rw [hs] at h; exact Except.noConfusion h
  | ok r =>
      obtain ⟨j, vs⟩ := r
      rw [hs] at h
      have hres : vs = res := Except.ok.inj h
      subst hres
      have hspecs := specsKeysOk_registerAll decls
      have hkeys : keysOf vs = keysOf (registerAll decls).values :=
        keysOf_scan _ _ args 0 _ j vs hspecs.1 hspecs.2 hs
      constructor
      · intro hk hnone
        rw [dictLookup_eq_none_iff] at hnone
        apply hnone
        rw [hkeys, mem_keysOf_registerAll]
        exact hk
      · constructor
        · intro hg hk
          have hmem : key ∈ keysOf vs := by
            rw [hkeys, mem_keysOf_registerAll]; exact hk
          cases hl : dictLookup vs key with
          | none =>
              rw [dictLookup_eq_none_iff] at hl
              exact hl hmem
          | some v =>
              unfold get at hg
              rw [hl] at hg
              exact Except.noConfusion hg
        · intro hk
          have hnone : dictLookup vs key = Option.none := by
            rw [dictLookup_eq_none_iff, hkeys, mem_keysOf_registerAll]
            exact hk
          unfold get
          rw [hnone]

/-- C9 witness: for the default declarations and the token x.c, the
debug key is declared, so its entry is present and `get` does not fail
on it. -/
theorem C9_result_keys_witness :
    ("debug" ∈ declKeys defaultDecls →
      dictLookup resultXc "debug" ≠ Option.none) ∧
    (get resultXc "debug" = Except.error (Err.unknownKey "debug") ↔
      "debug" ∉ declKeys defaultDecls) :=
  C9_result_keys defaultDecls ["x.c"] resultXc "debug" (by decide)

/-- C10 counterexample: a declaration with a plural arity (count given)
and an explicitly declared default does NOT start at the empty ordered
sequence — the explicit default wins, so the claim's clause for plural
arities fails. -/
theorem C10_plural_default_counterexample :
    get (addArgument initState "lib" (some (Pat.preGroup "-l" true))
        ⟨Option.none, some Count.star, some (Value.str "d")⟩).values "lib" =
      Except.ok (Value.str "d") ∧
    ¬ get (addArgument initState "lib" (some (Pat.preGroup "-l" true))
        ⟨Option.none, some Count.star, some (Value.str "d")⟩).values "lib" =
      Except.ok (Value.list []) := by
  exact ⟨by decide, by decide⟩

/-- Modelled from the amended claim: the initial value a declared key
holds right after registration — the explicitly declared default when
one is given; otherwise false when the declaration is an option whose
capture type resolves to switch; otherwise the empty ordered sequence
when a count is given; otherwise the Python `None`. -/
def specInitialValue (pattern : Option Pat) (kwargs : Conf) : Value :=
  match kwargs.default with
  | some d => d
  | Option.none =>
      match pattern with
      | some patt =>
          let t : CaptureType :=
            match kwargs.count with
            | some _ =>
                match kwargs.ctype with
                | some ct => ct
                | Option.none =>
                    if hasGroup (patString patt) then CaptureType.group 1
                    else CaptureType.next
            | Option.none =>
                match kwargs.ctype with
                | some ct => ct
                | Option.none => CaptureType.switch
          if t = CaptureType.switch then Value.bool false
          else
            match kwargs.count with
            | some _ => Value.list []
            | Option.none => Value.pynone
      | Option.none =>
          match kwargs.count with
          | some _ => Value.list []
          | Option.none => Value.pynone

/-- C10 amended: immediately after registering a declaration — before
any load — its key is readable via `get` and holds its resolved initial
value as given by `specInitialValue`; registration alone establishes the
entry. -/
theorem C10_initial_value (st : CargsState) (key : String)
    (pattern : Option Pat) (kwargs : Conf) :
    get (addArgument st key pattern kwargs).values key =
      Except.ok (specInitialValue pattern kwargs) := by
  obtain ⟨ct, cn, df⟩ := kwargs
  cases pattern with
  | none =>
      cases cn <;> cases df <;>
        simp [addArgument, get, specInitialValue, dictLookup_dictSet_self,
          Option.getD]
  | some patt =>
      cases cn with
      | none =>
          cases ct with
          | none =>
              cases df <;>
                simp [addArgument, get, specInitialValue,
                  dictLookup_dictSet_self, Option.getD]
          | some c =>
              cases df <;> by_cases hc : c = CaptureType.switch <;>
                simp [addArgument, get, specInitialValue,
                  dictLookup_dictSet_self, Option.getD, hc]
      | some cnt =>
          cases ct with
          | none =>
              cases df <;> by_cases hg : hasGroup (patString patt) <;>
                simp [addArgument, get, specInitialValue,
                  dictLookup_dictSet_self, Option.getD, hg]
          | some c =>
              cases df <;> by_cases hc : c = CaptureType.switch <;>
                simp [addArgument, get, specInitialValue,
                  dictLookup_dictSet_self, Option.getD, hc]

end Maker
